import Mathlib

/-!
# Verification of the wordpress-archiver change-detection and versioning core

This file is a shallow embedding, in Lean 4, of the core of the
`otuva/wordpress-archiver` repository:

* `src/wordpress_archiver/content_processor.py` — the content normalizer
  (`ContentProcessor.normalize_content`), the fingerprint function
  (`calculate_content_hash`), the field extractor (`extract_content_data`)
  and the date-filter helper (`is_date_after_filter`);
* `src/wordpress_archiver/database.py` — the version store
  (`get_content_hash`, `get_latest_version`, `insert_content`) and the
  session-record writers (`save_session_stats`,
  `save_comprehensive_session_stats`);
* `src/wordpress_archiver/archiver.py` — the archive orchestrator
  (`WordPressArchiver.archive_content`, `_get_content_page`,
  `_process_content_item`).

Strings are modelled as `List Char`.  The Python `re` substitutions used by
the normalizer all draw from a small set of constructs (case-insensitive
literals, greedy `[^x]*` character-class stars, greedy `[0-9]{10,}`,
lazy `.*?` under DOTALL, and alternations of literals), so they are embedded
by a small backtracking matcher whose candidate order mirrors Python's
leftmost, greedy/lazy backtracking order.  The external collaborators used
by the core (`html.unescape`, `datetime.fromisoformat`, SHA-256) are
modelled on the fragment of their behaviour the code exercises; each model
carries a doc comment stating the restriction.
-/

namespace WordpressArchiver

/-- Strings are modelled as lists of characters. -/
abbrev Str := List Char

/-- Shorthand turning a Lean string literal into the `Str` model. -/
def str (s : String) : Str := s.toList

/-- Python's `\s` character class (`re` module), restricted to the ASCII
whitespace characters; the inputs in this development contain no non-ASCII
whitespace. -/
def pyWs (c : Char) : Bool :=
  c == ' ' || c == '\t' || c == '\n' || c == '\r' || c == '\x0b' || c == '\x0c'

/-- Case-insensitive character comparison, as under `re.IGNORECASE`
(ASCII case folding; the patterns contain ASCII letters only). -/
def ciEq (a b : Char) : Bool := a.toLower == b.toLower

/-- If `pat` is a case-insensitive prefix of `cs`, return the remaining
suffix of `cs`. -/
def ciPrefixRem : Str → Str → Option Str
  | [], cs => some cs
  | _ :: _, [] => none
  | p :: ps, c :: cs => if ciEq p c then ciPrefixRem ps cs else none

/-- One atom of the restricted regular-expression language used by
`ContentProcessor.dynamic_patterns`:
literal (case-insensitive), alternation of literals (`(?:a|b|c)`),
greedy star over a one-character class (`[^x]*`, `\s*`),
greedy at-least-`n` repetition over a one-character class (`[0-9]{10,}`),
and the lazy any-character star (`.*?` under `re.DOTALL`). -/
inductive Atom where
  | lit (s : Str)
  | alts (ss : List Str)
  | star (p : Char → Bool)
  | repGE (n : Nat) (p : Char → Bool)
  | lazyAny

/-- A pattern is a sequence of atoms. -/
abbrev Pat := List Atom

/-- The suffixes of `cs` remaining after `a` matches a prefix of `cs`,
listed in Python's backtracking priority order (greedy constructs longest
first, lazy constructs shortest first, alternations left to right). -/
def matchAtom : Atom → Str → List Str
  | .lit s, cs => (ciPrefixRem s cs).toList
  | .alts ss, cs => ss.filterMap fun s => ciPrefixRem s cs
  | .star p, cs =>
      let k := (cs.takeWhile p).length
      (List.range (k + 1)).map fun i => cs.drop (k - i)
  | .repGE n p, cs =>
      let k := (cs.takeWhile p).length
      if k < n then [] else (List.range (k - n + 1)).map fun i => cs.drop (k - i)
  | .lazyAny, cs => (List.range (cs.length + 1)).map fun i => cs.drop i

/-- The suffixes remaining after the whole pattern matches a prefix of
`cs`, in backtracking priority order. -/
def matchPat : Pat → Str → List Str
  | [], cs => [cs]
  | a :: p, cs => (matchAtom a cs).flatMap (matchPat p)

/-- The suffix remaining after the match Python's engine would pick at this
position (the first one in backtracking order), if any. -/
def firstRem (p : Pat) (cs : Str) : Option Str := (matchPat p cs).head?

/-- Fuel-indexed worker for `pySub`.  The fuel equals the input length,
which suffices because every pattern in `dynamic_patterns` begins with a
non-empty literal, so a match always consumes at least one character (an
empty match is treated as no match, as the guard makes explicit). -/
def subAux (p : Pat) : Nat → Str → Str
  | _, [] => []
  | 0, cs => cs
  | fuel + 1, c :: cs =>
      match firstRem p (c :: cs) with
      | some rest =>
          if rest.length < cs.length + 1 then subAux p fuel rest
          else c :: subAux p fuel cs
      | none => c :: subAux p fuel cs

/-- Model of `re.sub(pattern, '', s, flags=re.DOTALL | re.IGNORECASE)`:
scan left to right, delete each leftmost non-overlapping match, and
continue scanning after the deleted region. -/
def pySub (p : Pat) (cs : Str) : Str := subAux p cs.length cs

/-- Character class of `[^>]*`. -/
def notGt (c : Char) : Bool := !(c == '>')
/-- Character class of `[^"]*`. -/
def notQuote (c : Char) : Bool := !(c == '"')
/-- Character class of `[^=]*`. -/
def notEq (c : Char) : Bool := !(c == '=')
/-- Character class of `[0-9]`. -/
def isDig (c : Char) : Bool := c.isDigit

/-- Model of `ContentProcessor.dynamic_patterns` (content_processor.py, lines 22-56),
in source order.  Each entry is the embedding of one regex; the original
regex is quoted in the comment. -/
def dynamic_patterns : List Pat :=
  [ -- <div[^>]*class="[^"]*sharethis[^"]*"[^>]*>.*?</div>
    [.lit (str "<div"), .star notGt, .lit (str "class=\""), .star notQuote,
     .lit (str "sharethis"), .star notQuote, .lit (str "\""), .star notGt,
     .lit (str ">"), .lazyAny, .lit (str "</div>")],
    -- <div[^>]*class="[^"]*(?:social-share|share-buttons|social-media)[^"]*"[^>]*>.*?</div>
    [.lit (str "<div"), .star notGt, .lit (str "class=\""), .star notQuote,
     .alts [str "social-share", str "share-buttons", str "social-media"],
     .star notQuote, .lit (str "\""), .star notGt,
     .lit (str ">"), .lazyAny, .lit (str "</div>")],
    -- <div[^>]*class="[^"]*(?:adsbygoogle|advertisement|ad-container)[^"]*"[^>]*>.*?</div>
    [.lit (str "<div"), .star notGt, .lit (str "class=\""), .star notQuote,
     .alts [str "adsbygoogle", str "advertisement", str "ad-container"],
     .star notQuote, .lit (str "\""), .star notGt,
     .lit (str ">"), .lazyAny, .lit (str "</div>")],
    -- <script[^>]*>.*?</script>
    [.lit (str "<script"), .star notGt, .lit (str ">"), .lazyAny,
     .lit (str "</script>")],
    -- style="[^"]*"
    [.lit (str "style=\""), .star notQuote, .lit (str "\"")],
    -- data-[^=]*="[^"]*"
    [.lit (str "data-"), .star notEq, .lit (str "=\""), .star notQuote,
     .lit (str "\"")],
    -- <div[^>]*>\s*</div>
    [.lit (str "<div"), .star notGt, .lit (str ">"), .star pyWs,
     .lit (str "</div>")],
    -- <span[^>]*>\s*</span>
    [.lit (str "<span"), .star notGt, .lit (str ">"), .star pyWs,
     .lit (str "</span>")],
    -- <div[^>]*class="[^"]*wp-block[^"]*"[^>]*>.*?</div>
    [.lit (str "<div"), .star notGt, .lit (str "class=\""), .star notQuote,
     .lit (str "wp-block"), .star notQuote, .lit (str "\""), .star notGt,
     .lit (str ">"), .lazyAny, .lit (str "</div>")],
    -- <div[^>]*id="[^"]*wp-block[^"]*"[^>]*>.*?</div>
    [.lit (str "<div"), .star notGt, .lit (str "id=\""), .star notQuote,
     .lit (str "wp-block"), .star notQuote, .lit (str "\""), .star notGt,
     .lit (str ">"), .lazyAny, .lit (str "</div>")],
    -- <div[^>]*class="[^"]*(?:analytics|tracking|gtag)[^"]*"[^>]*>.*?</div>
    [.lit (str "<div"), .star notGt, .lit (str "class=\""), .star notQuote,
     .alts [str "analytics", str "tracking", str "gtag"],
     .star notQuote, .lit (str "\""), .star notGt,
     .lit (str ">"), .lazyAny, .lit (str "</div>")],
    -- <time[^>]*datetime="[^"]*"[^>]*>.*?</time>
    [.lit (str "<time"), .star notGt, .lit (str "datetime=\""), .star notQuote,
     .lit (str "\""), .star notGt, .lit (str ">"), .lazyAny,
     .lit (str "</time>")],
    -- id="[^"]*[0-9]{10,}[^"]*"
    [.lit (str "id=\""), .star notQuote, .repGE 10 isDig, .star notQuote,
     .lit (str "\"")],
    -- class="[^"]*[0-9]{10,}[^"]*"
    [.lit (str "class=\""), .star notQuote, .repGE 10 isDig, .star notQuote,
     .lit (str "\"")] ]

/-- The pattern-removal phase of `normalize_content`: apply each
`dynamic_patterns` substitution in source order. -/
def applyDynamicPatterns (s : Str) : Str :=
  dynamic_patterns.foldl (fun acc p => pySub p acc) s

/-- The named-entity table used by the `html.unescape` model: the standard
HTML5 entities the repository's content can contain, with and without the
trailing semicolon, exactly as Python's `html` module resolves them
(semicolon forms take precedence; bare names also resolve). -/
def namedEntities : List (Str × Char) :=
  [(str "amp;", '&'), (str "lt;", '<'), (str "gt;", '>'),
   (str "quot;", '"'), (str "nbsp;", '\xa0'), (str "apos;", '\''),
   (str "AMP;", '&'), (str "LT;", '<'), (str "GT;", '>'), (str "QUOT;", '"'),
   (str "amp", '&'), (str "lt", '<'), (str "gt", '>'), (str "quot", '"'),
   (str "AMP", '&'), (str "LT", '<'), (str "GT", '>'), (str "QUOT", '"')]

/-- Case-sensitive prefix match (HTML entity names are case-sensitive). -/
def csPrefixRem : Str → Str → Option Str
  | [], cs => some cs
  | _ :: _, [] => none
  | p :: ps, c :: cs => if p == c then csPrefixRem ps cs else none

/-- Decimal digit run to a number. -/
def digitsToNat (ds : Str) : Nat :=
  ds.foldl (fun a c => a * 10 + (c.toNat - 48)) 0

/-- A numeric character reference, as Python's `html.unescape` resolves it:
out-of-range and surrogate code points (and NUL) become U+FFFD.  (The
Windows-1252 remapping of 0x80–0x9F is outside the fragment used here.) -/
def numRef (n : Nat) : Char :=
  if n = 0 || (0xD800 ≤ n && n < 0xE000) || 0x10FFFF < n then '�'
  else Char.ofNat n

/-- Try to read one character reference right after a `&`, returning the
decoded character and the rest of the input. -/
def matchEntity (rest : Str) : Option (Char × Str) :=
  match rest with
  | '#' :: t =>
      let ds := t.takeWhile isDig
      if ds.isEmpty then none
      else
        let rem := t.drop ds.length
        let rem := match rem with
          | ';' :: r => r
          | r => r
        some (numRef (digitsToNat ds), rem)
  | _ => (namedEntities.filterMap fun e =>
           (csPrefixRem e.1 rest).map fun rem => (e.2, rem)).head?

/-- Fuel-indexed worker for `pyUnescape`; fuel equal to the input length
suffices since every step consumes at least one character. -/
def unescapeAux : Nat → Str → Str
  | _, [] => []
  | 0, cs => cs
  | fuel + 1, '&' :: rest =>
      match matchEntity rest with
      | some (ch, rem) => ch :: unescapeAux fuel rem
      | none => '&' :: unescapeAux fuel rest
  | fuel + 1, c :: cs => c :: unescapeAux fuel cs

/-- Model of Python's `html.unescape`, restricted to the standard named
entities in `namedEntities` and decimal numeric references — the entity
vocabulary exercised in this development.  Like the original, it scans
left to right and never rescans its own output. -/
def pyUnescape (s : Str) : Str := unescapeAux s.length s

/-- Model of `re.sub(r'\s+', ' ', s)`: every maximal run of whitespace
becomes a single space (a whitespace character is dropped when another
whitespace character follows, and otherwise becomes the single space that
ends its run). -/
def collapseWs : Str → Str
  | [] => []
  | [c] => if pyWs c then [' '] else [c]
  | c :: d :: cs =>
      if pyWs c && pyWs d then collapseWs (d :: cs)
      else (if pyWs c then ' ' else c) :: collapseWs (d :: cs)

/-- Model of Python's `str.strip()` (the inputs here contain only ASCII
whitespace): drop whitespace from both ends. -/
def pyStrip (s : Str) : Str :=
  ((s.dropWhile pyWs).reverse.dropWhile pyWs).reverse

/-- Model of `ContentProcessor.normalize_content` (content_processor.py, lines
58-84): empty input yields empty output; otherwise apply every
`dynamic_patterns` removal in order, then decode HTML entities, then
collapse whitespace runs to single spaces and trim. -/
def normalize_content (content : Str) : Str :=
  if content.isEmpty then []
  else pyStrip (collapseWs (pyUnescape (applyDynamicPatterns content)))

/-- Model of `ContentProcessor.calculate_content_hash` (content_processor.py, lines
86-97): the SHA-256 hex digest of the normalized content.  The digest
itself is modelled as the normalized content (an idealized collision-free
hash): every claim uses the digest only through equality comparison, and
under the collision-freeness idealization digest equality coincides with
equality of the normalized content. -/
def calculate_content_hash (content : Str) : Str :=
  normalize_content content

/-! ## Dates: model of the `datetime` values used by `is_date_after_filter`
and `format_date_for_api` -/

/-- Model of a Python `datetime.datetime` at whole-second precision (the
datetimes produced by the archiver's CLI and the WordPress API carry no
microseconds).  `tz` is the UTC offset in minutes: `none` is an
offset-naive value, `some off` an offset-aware one. -/
structure PyDateTime where
  year : Nat
  month : Nat
  day : Nat
  hour : Nat
  minute : Nat
  second : Nat
  tz : Option Int
deriving DecidableEq, Repr

def isLeap (y : Nat) : Bool := y % 4 == 0 && (y % 100 != 0 || y % 400 == 0)

def daysInMonth (y m : Nat) : Nat :=
  match m with
  | 1 => 31 | 2 => if isLeap y then 29 else 28 | 3 => 31 | 4 => 30
  | 5 => 31 | 6 => 30 | 7 => 31 | 8 => 31 | 9 => 30 | 10 => 31
  | 11 => 30 | 12 => 31 | _ => 0

def d2val (a b : Char) : Option Nat :=
  if isDig a && isDig b then some ((a.toNat - 48) * 10 + (b.toNat - 48)) else none

def d4val (a b c d : Char) : Option Nat :=
  if isDig a && isDig b && isDig c && isDig d then
    some (((a.toNat - 48) * 10 + (b.toNat - 48)) * 100 +
          (c.toNat - 48) * 10 + (d.toNat - 48))
  else none

/-- Range-check and build a datetime, as `datetime.datetime` validates its
constructor arguments (Gregorian month lengths, 24-hour clock). -/
def mkDT (y mo d h mi s : Nat) (tz : Option Int) : Option PyDateTime :=
  if 1 ≤ y && y ≤ 9999 && 1 ≤ mo && mo ≤ 12 && 1 ≤ d && d ≤ daysInMonth y mo
     && h < 24 && mi < 60 && s < 60 then
    some ⟨y, mo, d, h, mi, s, tz⟩
  else none

/-- Parse the time-and-offset tail of an ISO string: `HH:MM`, `HH:MM:SS`,
each optionally followed by `±HH:MM`. -/
def parseTimeTz (rest : Str) : Option (Nat × Nat × Nat × Option Int) :=
  let sgn : Char → Option Int := fun c =>
    if c == '+' then some 1 else if c == '-' then some (-1) else none
  match rest with
  | [h1, h2, ':', m1, m2] =>
      (d2val h1 h2).bind fun h => (d2val m1 m2).map fun mi => (h, mi, 0, none)
  | [h1, h2, ':', m1, m2, ':', s1, s2] =>
      (d2val h1 h2).bind fun h => (d2val m1 m2).bind fun mi =>
        (d2val s1 s2).map fun s => (h, mi, s, none)
  | [h1, h2, ':', m1, m2, sg, o1, o2, ':', o3, o4] =>
      (d2val h1 h2).bind fun h => (d2val m1 m2).bind fun mi =>
        (sgn sg).bind fun sn => (d2val o1 o2).bind fun oh =>
          (d2val o3 o4).bind fun om =>
            if oh < 24 && om < 60 then
              some (h, mi, 0, some (sn * (oh * 60 + om)))
            else none
  | [h1, h2, ':', m1, m2, ':', s1, s2, sg, o1, o2, ':', o3, o4] =>
      (d2val h1 h2).bind fun h => (d2val m1 m2).bind fun mi =>
        (d2val s1 s2).bind fun s => (sgn sg).bind fun sn =>
          (d2val o1 o2).bind fun oh => (d2val o3 o4).bind fun om =>
            if oh < 24 && om < 60 then
              some (h, mi, s, some (sn * (oh * 60 + om)))
            else none
  | _ => none

/-- Model of `datetime.fromisoformat`, restricted to the whole-second
shapes `YYYY-MM-DD`, `YYYY-MM-DD{T or space}HH:MM[:SS][±HH:MM]` that the
WordPress API and the archiver's CLI produce.  Returning `none` models the
`ValueError` the caller catches. -/
def fromisoformat (s : Str) : Option PyDateTime :=
  match s with
  | [y1, y2, y3, y4, '-', m1, m2, '-', dd1, dd2] =>
      (d4val y1 y2 y3 y4).bind fun y => (d2val m1 m2).bind fun mo =>
        (d2val dd1 dd2).bind fun d => mkDT y mo d 0 0 0 none
  | y1 :: y2 :: y3 :: y4 :: '-' :: m1 :: m2 :: '-' :: dd1 :: dd2 :: sep :: rest =>
      if sep == 'T' || sep == ' ' then
        (d4val y1 y2 y3 y4).bind fun y => (d2val m1 m2).bind fun mo =>
          (d2val dd1 dd2).bind fun d => (parseTimeTz rest).bind fun t =>
            mkDT y mo d t.1 t.2.1 t.2.2.1 t.2.2.2
      else none
  | _ => none

/-- Model of `item_date.replace('Z', '+00:00')`: every `Z` becomes `+00:00`. -/
def pyReplaceZ (s : Str) : Str :=
  s.flatMap fun c => if c == 'Z' then str "+00:00" else [c]

/-- Days since 0000-03-01 in the proleptic Gregorian calendar (valid and
strictly monotone for the years 1–9999 that `mkDT` admits). -/
def daysFromCivil (y m d : Nat) : Nat :=
  let y' := if m ≤ 2 then y - 1 else y
  let era := y' / 400
  let yoe := y' % 400
  let mp := if m ≤ 2 then m + 9 else m - 3
  let doy := (153 * mp + 2) / 5 + (d - 1)
  let doe := yoe * 365 + yoe / 4 - yoe / 100 + doy
  era * 146097 + doe

/-- Instant represented by a datetime, in seconds, after subtracting the
UTC offset `off` (in minutes). -/
def totalSeconds (dt : PyDateTime) (off : Int) : Int :=
  (((daysFromCivil dt.year dt.month dt.day : Int) * 24 * 60
      + dt.hour * 60 + dt.minute) - off) * 60 + dt.second

/-- Model of Python's `datetime.__ge__`: two naive values compare by their
fields, two aware values compare by the instants they denote, and mixing a
naive value with an aware one raises `TypeError` (modelled as
`Except.error`), which `is_date_after_filter` does not catch. -/
def dtGE (a b : PyDateTime) : Except Unit Bool :=
  match a.tz, b.tz with
  | none, none => .ok (decide (totalSeconds b 0 ≤ totalSeconds a 0))
  | some ta, some tb => .ok (decide (totalSeconds b tb ≤ totalSeconds a ta))
  | _, _ => .error ()

/-- Model of `ContentProcessor.is_date_after_filter` (content_processor.py, lines
99-120): `True` when no filter is set; otherwise parse the item date (with
`Z` rewritten to `+00:00`), treat a parse failure (`ValueError`, caught) as
`True`, and otherwise return the inclusive `>=` comparison — whose
naive/aware `TypeError` is *not* caught and escapes as `Except.error`. -/
def is_date_after_filter (item_date : Str) (after_date : Option PyDateTime) :
    Except Unit Bool :=
  match after_date with
  | none => .ok true
  | some ad =>
      match fromisoformat (pyReplaceZ item_date) with
      | none => .ok true
      | some idt => dtGE idt ad

def natStr (n : Nat) : Str := Nat.toDigits 10 n

def padTo (w : Nat) (s : Str) : Str := List.replicate (w - s.length) '0' ++ s

def pad2 (n : Nat) : Str := padTo 2 (natStr n)

def pad4 (n : Nat) : Str := padTo 4 (natStr n)

/-- The `±HH:MM` suffix of `datetime.isoformat()` for an aware value with
offset `off` minutes. -/
def tzSuffix (off : Int) : Str :=
  (if off < 0 then str "-" else str "+") ++
    pad2 (off.natAbs / 60) ++ str ":" ++ pad2 (off.natAbs % 60)

/-- Model of `ContentProcessor.format_date_for_api` (content_processor.py, lines
122-140): `None` stays `None`; a midnight datetime is rendered with
`strftime('%Y-%m-%dT%H:%M:%S')` (no offset), any other with
`isoformat()` (offset suffix when aware; the modelled datetimes carry no
microseconds). -/
def format_date_for_api (after_date : Option PyDateTime) : Option Str :=
  match after_date with
  | none => none
  | some a =>
      let base := pad4 a.year ++ str "-" ++ pad2 a.month ++ str "-" ++
        pad2 a.day ++ str "T" ++ pad2 a.hour ++ str ":" ++ pad2 a.minute ++
        str ":" ++ pad2 a.second
      if a.hour == 0 && a.minute == 0 && a.second == 0 then some base
      else
        match a.tz with
        | none => some base
        | some off => some (base ++ tzSuffix off)

/-! ## Data model: content kinds, remote items, the version store -/

/-- The six content kinds (`content_type` strings of the source). -/
inductive ContentType where
  | posts | comments | pages | users | categories | tags
deriving DecidableEq, Repr

/-- Model of one loosely-typed remote item (a WordPress API JSON object).
`id` is the mandatory identity (`wp_item['id']`; `none` models a payload
missing the key, which raises `KeyError`).  The fields the claims never
touch (title, excerpt, author, status, links, timestamps other than
`date`) are omitted: they are copied opaquely into the stored record and
play no role in fingerprinting or versioning. -/
structure RemoteItem where
  id : Option Nat
  date : Str
  content : Str
  name : Str
  description : Str
  url : Str
  slug : Str
deriving DecidableEq, Repr

/-- The fingerprint input per kind (`extract_content_data`,
content_processor.py lines 142-229): posts/comments/pages hash the rendered
body; users hash name+description+url; categories/tags hash
name+description+slug. -/
def fingerprintInput (ct : ContentType) (it : RemoteItem) : Str :=
  match ct with
  | .posts | .comments | .pages => it.content
  | .users => it.name ++ it.description ++ it.url
  | .categories | .tags => it.name ++ it.description ++ it.slug

/-- Model of `ContentProcessor.extract_content_data`, projected to the identity and
fingerprint the versioning core consumes: `none` models the `KeyError` on a
payload without `id`; every other field defaults rather than failing. -/
def extract_content_data (ct : ContentType) (it : RemoteItem) :
    Option (Nat × Str) :=
  match it.id with
  | none => none
  | some wp => some (wp, calculate_content_hash (fingerprintInput ct it))

/-- One stored row, projected to the columns the claims are about
(`wp_id`, `version`, `content_hash`; the remaining columns are copied from
the extracted record and never read back by the versioning logic).  The
schema enforces `UNIQUE(wp_id, version)`. -/
structure Row where
  wp_id : Nat
  version : Nat
  content_hash : Str
deriving DecidableEq, Repr

/-- The store: one append-only table per content kind. -/
abbrev Store := ContentType → List Row

def emptyStore : Store := fun _ => []

/-- Fold step selecting the row with the maximal version (the row `ORDER BY
version DESC LIMIT 1` returns; versions are unique per `wp_id`). -/
def latestRowPick (acc : Option Row) (r : Row) : Option Row :=
  match acc with
  | none => some r
  | some b => if b.version < r.version then some r else some b

/-- Model of `DatabaseManager.get_latest_version` (database.py, lines 337-357):
the max-version row for `wp_id`, or `none` when the id has no rows. -/
def get_latest_version (rows : List Row) (wp : Nat) : Option Row :=
  (rows.filter fun r => r.wp_id == wp).foldl latestRowPick none

/-- Model of `DatabaseManager.get_content_hash` (database.py, lines 294-314): the
`content_hash` of the max-version row (its own `ORDER BY version DESC
LIMIT 1` query selects the same row as `get_latest_version`). -/
def get_content_hash (rows : List Row) (wp : Nat) : Option Str :=
  (get_latest_version rows wp).map fun r => r.content_hash

/-- Model of `DatabaseManager.insert_content` (database.py, lines 358-466): append
one immutable row to the kind's table. -/
def insert_content (s : Store) (ct : ContentType) (row : Row) : Store :=
  fun ct' => if ct' = ct then s ct' ++ [row] else s ct'

/-! ## Orchestrator -/

/-- Run counters (`stats` dict of `archive_content`). -/
structure Stats where
  processed : Nat := 0
  new : Nat := 0
  updated : Nat := 0
  errors : Nat := 0
deriving DecidableEq, Repr

/-- Model of `WordPressArchiver._process_content_item` (archiver.py, lines 125-145):
extract, look up the latest stored fingerprint, and decide — absent ⇒
insert version 1 and count `new` (Created); present and different ⇒ insert
version latest+1 and count `updated` (Updated); present and equal ⇒ do
nothing (Unchanged).  `none` models the exception an id-less payload
raises, which the caller catches and counts. -/
def process_content_item (ct : ContentType) (it : RemoteItem)
    (store : Store) (stats : Stats) : Option (Store × Stats) :=
  (extract_content_data ct it).map fun ex =>
    let wp := ex.1
    let h := ex.2
    match get_content_hash (store ct) wp with
    | none =>
        (insert_content store ct ⟨wp, 1, h⟩, {stats with new := stats.new + 1})
    | some old =>
        if old ≠ h then
          let newVersion :=
            match get_latest_version (store ct) wp with
            | some r => r.version + 1
            | none => 2
          (insert_content store ct ⟨wp, newVersion, h⟩,
           {stats with updated := stats.updated + 1})
        else (store, stats)

/-- Any sequence of item-processing operations, started from the empty
store (ignoring the per-run counters; a failed extraction leaves the store
unchanged). -/
def runOps (ops : List (ContentType × RemoteItem)) : Store :=
  ops.foldl
    (fun st op =>
      match process_content_item op.1 op.2 st {} with
      | some res => res.1
      | none => st)
    emptyStore

/-- One page of the remote response (`WordPressResponse`: items plus the
`X-WP-TotalPages` header). -/
structure ApiResponse where
  data : List RemoteItem
  total_pages_count : Nat

/-- The external remote source: what it answers to a request for a given
page, page size, and optional `after` parameter.  Its behaviour is
unconstrained — honouring `after` is up to the remote. -/
abbrev Api := Nat → Nat → Option Str → ApiResponse

/-- Model of `WordPressArchiver._get_content_page` (archiver.py, lines 107-123):
posts/comments/pages/users pass the `after` parameter through to the
remote; categories/tags are requested without it. -/
def get_content_page (api : Api) (ct : ContentType) (page per_page : Nat)
    (after : Option Str) : ApiResponse :=
  match ct with
  | .posts | .comments | .pages | .users => api page per_page after
  | .categories | .tags => api page per_page none

/-- Model of `if limit and stats["processed"] >= limit` — Python's truthiness makes
a limit of `0` inert. -/
def limitHit (limit : Option Nat) (stats : Stats) : Bool :=
  match limit with
  | some l => l != 0 && decide (l ≤ stats.processed)
  | none => false

/-- The inner `for item in response.data` loop of `archive_content`
(archiver.py, lines 66-80): count the item as processed and run
`_process_content_item`.  On success the limit check that follows it
(still inside the `try`) may break the loop; when processing raises, the
exception jumps straight to the `except` arm — one counted error, *no*
limit check — and the loop continues with the next item. -/
def processPageItems (ct : ContentType) (limit : Option Nat) :
    List RemoteItem → Store → Stats → Store × Stats
  | [], store, stats => (store, stats)
  | it :: rest, store, stats =>
      let stats1 := {stats with processed := stats.processed + 1}
      match process_content_item ct it store stats1 with
      | some res =>
          if limitHit limit res.2 then res
          else processPageItems ct limit rest res.1 res.2
      | none =>
          processPageItems ct limit rest store
            {stats1 with errors := stats1.errors + 1}

/-- Result of a run: the store, the counters, and the page numbers that
were requested from the remote. -/
structure RunResult where
  store : Store
  stats : Stats
  pagesRequested : List Nat

/-- The `while True` pagination loop of `archive_content` (archiver.py,
lines 57-98), indexed by fuel bounding the number of iterations (the
Python loop corresponds to any fuel large enough for the run to finish;
all invariants below are proved for every fuel).  An empty page breaks;
then the page's items are processed; then the loop breaks when the limit
is reached, when ten consecutive pages had no matching content (a branch
that is unreachable here because any item sets
`page_has_matching_content`), or when the remote-reported page count is
exhausted; otherwise the next page is fetched. -/
def archiveLoop (api : Api) (ct : ContentType) (limit : Option Nat)
    (per_page : Nat) (afterIso : Option Str) :
    Nat → Nat → Nat → Store → Stats → List Nat → RunResult
  | 0, _, _, store, stats, pages => ⟨store, stats, pages⟩
  | fuel + 1, page, consec, store, stats, pages =>
      let resp := get_content_page api ct page per_page afterIso
      let pages := pages ++ [page]
      if resp.data.isEmpty then ⟨store, stats, pages⟩
      else
        let pageHas := true
        let res := processPageItems ct limit resp.data store stats
        if limitHit limit res.2 then ⟨res.1, res.2, pages⟩
        else
          let consec' := if pageHas then 0 else consec + 1
          if !pageHas && decide (10 ≤ consec') then ⟨res.1, res.2, pages⟩
          else if decide (resp.total_pages_count ≤ page) then
            ⟨res.1, res.2, pages⟩
          else
            archiveLoop api ct limit per_page afterIso fuel (page + 1)
              consec' res.1 res.2 pages

/-- Model of `WordPressArchiver.archive_content` (archiver.py, lines 32-105):
`per_page = min(100, limit) if limit else 100`, the date filter is
formatted once for the API, and the pagination loop runs from page 1 on an
empty store and zeroed counters. -/
def archive_content (api : Api) (ct : ContentType) (limit : Option Nat)
    (after_date : Option PyDateTime) (fuel : Nat) : RunResult :=
  let per_page :=
    match limit with
    | some l => if l == 0 then 100 else min 100 l
    | none => 100
  let afterIso := format_date_for_api after_date
  archiveLoop api ct limit per_page afterIso fuel 1 0 emptyStore {} []

/-! ## Session records -/

/-- One row of `archive_sessions`, with `errors` as the decoded JSON list
the source serializes. -/
structure SessionRow where
  content_type : Str
  items_processed : Nat
  items_new : Nat
  items_updated : Nat
  errors : List Str
deriving DecidableEq, Repr

/-- Model of `DatabaseManager.save_session_stats` (database.py, lines 681-702):
single-kind session; `errors` is `[]` on a clean run and the literal
`["Errors occurred"]` marker otherwise. -/
def save_session_stats (content_type : Str) (stats : Stats) : SessionRow :=
  ⟨content_type, stats.processed, stats.new, stats.updated,
   if stats.errors == 0 then [] else [str "Errors occurred"]⟩

/-- Model of `', '.join(...)`. -/
def joinComma : List Str → Str
  | [] => []
  | [x] => x
  | x :: xs => x ++ str ", " ++ joinComma xs

/-- The `content_summary` list built by
`save_comprehensive_session_stats`: one line per kind with processed > 0. -/
def content_summary (all_stats : List (Str × Stats)) : List Str :=
  all_stats.filterMap fun e =>
    if e.2.processed > 0 then
      some (e.1 ++ str ": " ++ natStr e.2.processed ++ str " processed, " ++
            natStr e.2.new ++ str " new, " ++ natStr e.2.updated ++
            str " updated")
    else none

def total_errors (all_stats : List (Str × Stats)) : Nat :=
  (all_stats.map fun e => e.2.errors).sum

/-- Model of `DatabaseManager.save_comprehensive_session_stats` (database.py, lines
704-748): aggregate the per-kind counters, build the description
(`INTERRUPTED - ` prefix when interrupted), and store `content_summary` in
the `errors` column — appending `"Errors occurred"` when any errors were
counted. -/
def save_comprehensive_session_stats (domain : Str)
    (content_types : List Str) (all_stats : List (Str × Stats))
    (interrupted : Bool) : SessionRow :=
  let total_processed := (all_stats.map fun e => e.2.processed).sum
  let total_new := (all_stats.map fun e => e.2.new).sum
  let total_updated := (all_stats.map fun e => e.2.updated).sum
  let desc :=
    (if interrupted then str "INTERRUPTED - " else []) ++
      str "Archive of " ++ domain ++ str " - " ++ joinComma content_types
  ⟨desc, total_processed, total_new, total_updated,
   if total_errors all_stats == 0 then content_summary all_stats
   else content_summary all_stats ++ [str "Errors occurred"]⟩

/-! ## Concrete fixtures for the scenario theorems -/

/-- A post item with the given rendered body. -/
def postItem (wp : Nat) (body : Str) : RemoteItem :=
  ⟨some wp, [], body, [], [], [], []⟩

/-- The spec's scenario body, share widget with a single-quoted class. -/
def shareBodySingleQ : Str :=
  str "<p>Hello</p><div class='sharethis-inline'>X</div>"

/-- The same body with the class attribute double-quoted, as the
`dynamic_patterns` regexes expect. -/
def shareBodyDoubleQ : Str :=
  str "<p>Hello</p><div class=\"sharethis-inline\">X</div>"

def helloBody : Str := str "<p>Hello</p>"

/-- An entity-encoded script fragment: pattern removal sees no tag, entity
decoding then reveals one. -/
def entityScript : Str := str "&lt;script&gt;x&lt;/script&gt;"

/-- A div emptied only by the `<time>` removal, which runs after the
empty-shell removal in `dynamic_patterns`. -/
def timeShell : Str := str "<div><time datetime=\"t\">x</time></div>"

/-- The version list stored for `wp` among `rows`, in table order. -/
def versionsOf (rows : List Row) (wp : Nat) : List Nat :=
  (rows.filter fun r => r.wp_id == wp).map fun r => r.version

/-- The date 2024-01-01, offset-naive — the CLI's parse of `--after-date
2024-01-01`. -/
def dt2024 : PyDateTime := ⟨2024, 1, 1, 0, 0, 0, none⟩

/-- An item whose remote-reported date lies before `dt2024`. -/
def oldItem : RemoteItem :=
  ⟨some 9, str "2020-01-01T00:00:00", str "old", [], [], [], []⟩

/-- A remote source serving exactly one page holding only `oldItem`
(a remote that does not filter by date). -/
def apiOld : Api := fun page _pp _after =>
  if page == 1 then ⟨[oldItem], 1⟩ else ⟨[], 1⟩

/-- A remote source holding 30 items (ids 1–30), served in pages of the
requested size. -/
def api30 : Api := fun page per_page _after =>
  let items := (List.range 30).map fun i => postItem (i + 1) (natStr (i + 1))
  ⟨(items.drop ((page - 1) * per_page)).take per_page,
   (30 + per_page - 1) / per_page⟩

/-! ## Claim theorems -/

/-- Claim C3, counterexample:  Normalization is not idempotent: on
`"&lt;script&gt;x&lt;/script&gt;"` the first pass only decodes the
entities (no pattern matches the encoded text), yielding
`"<script>x</script>"`, and the second pass removes that script tag
entirely, so `normalize(normalize(h)) ≠ normalize(h)`. -/
theorem c3_normalize_not_idempotent :
    normalize_content (normalize_content entityScript) ≠
      normalize_content entityScript := by decide

/-- Claim C4, counterexample:  The claim's pair of raw bodies does *not*
fingerprint equally: the share-widget patterns require a double-quoted
`class="..."` attribute, and the scenario's widget uses single quotes, so
the widget survives normalization, the fingerprints differ, and
resubmitting id 42 with the second body yields Updated with a second
version row — not Unchanged. -/
theorem c4_single_quote_share_widget_detected_as_change :
    calculate_content_hash shareBodySingleQ ≠ calculate_content_hash helloBody ∧
    (processPageItems .posts none [postItem 42 shareBodySingleQ, postItem 42 helloBody]
        emptyStore {}).2.updated = 1 ∧
    versionsOf ((processPageItems .posts none
        [postItem 42 shareBodySingleQ, postItem 42 helloBody]
        emptyStore {}).1 .posts) 42 = [1, 2] := by
  refine ⟨by decide, by decide, by decide⟩

/-- Claim C4, amended:  With the widget's class attribute double-quoted (the
form the `dynamic_patterns` regexes match), the scenario holds: the
fingerprints agree, processing id 42 with the widget body and then with
the bare body yields no update and a single stored version; likewise two
bodies differing only in HTML-entity encoding style (`&amp;` versus
`&#38;`) fingerprint equally. -/
theorem c4_double_quote_share_widget_unchanged :
    calculate_content_hash shareBodyDoubleQ = calculate_content_hash helloBody ∧
    (processPageItems .posts none [postItem 42 shareBodyDoubleQ, postItem 42 helloBody]
        emptyStore {}).2.updated = 0 ∧
    (processPageItems .posts none [postItem 42 shareBodyDoubleQ, postItem 42 helloBody]
        emptyStore {}).2.new = 1 ∧
    versionsOf ((processPageItems .posts none
        [postItem 42 shareBodyDoubleQ, postItem 42 helloBody]
        emptyStore {}).1 .posts) 42 = [1] ∧
    calculate_content_hash (str "<p>A&amp;B</p>") =
      calculate_content_hash (str "<p>A&#38;B</p>") := by
  refine ⟨by decide, by decide, by decide, by decide, by decide⟩

/-- Claim C5, counterexample:  The empty-shell removal does *not* run after
all noise-removal steps: in `dynamic_patterns` the empty `<div>`/`<span>`
patterns sit before the wp-block, analytics, `<time>` and 10+-digit
id/class patterns, so a div emptied by the `<time>` removal survives
normalization instead of being removed. -/
theorem c5_time_emptied_shell_survives :
    normalize_content timeShell = str "<div></div>" ∧
    normalize_content timeShell ≠ [] := by
  refine ⟨by decide, by decide⟩

/-- Claim C5, amended:  The empty-shell removal runs after the share/ad,
script, style-attribute and data-attribute removals (a div emptied by the
script removal is removed), but before the wp-block, analytics, `<time>`
and 10+-digit id/class removals (a div emptied by the time removal
survives); entity decoding follows all pattern removal, and whitespace
collapse plus trim is the final step. -/
theorem c5_normalizer_step_order :
    (∀ s, normalize_content s =
        if s.isEmpty then []
        else pyStrip (collapseWs (pyUnescape (applyDynamicPatterns s)))) ∧
    normalize_content (str "<div><script>x</script></div>") = [] ∧
    normalize_content timeShell = str "<div></div>" := by
  refine ⟨fun s => rfl, by decide, by decide⟩

/-- Claim C6, counterexample:  The orchestrator applies no per-item date
check: with an `after_date` of 2024-01-01, an item whose remote-reported
date (2020-01-01) fails the date filter is nevertheless processed, counted
and stored when the remote returns it in a page — exclusion is not
"applied per-item by the orchestrator after the page has been fetched". -/
theorem c6_old_item_still_processed :
    is_date_after_filter oldItem.date (some dt2024) = .ok false ∧
    (archive_content apiOld .posts none (some dt2024) 3).stats.processed = 1 ∧
    versionsOf ((archive_content apiOld .posts none (some dt2024) 3).store .posts) 9
      = [1] := by
  refine ⟨by rfl, by decide, by decide⟩

/-- Claim C6, amended:  The `after` filter is pushed down to the remote
request for posts, comments, pages and users, and omitted for categories
and tags (all their items pass); the orchestrator itself performs no
per-item date exclusion — item processing is entirely independent of the
item's remote-reported date. -/
theorem c6_after_filter_pushdown :
    (∀ api page pp a, get_content_page api .posts page pp a = api page pp a) ∧
    (∀ api page pp a, get_content_page api .comments page pp a = api page pp a) ∧
    (∀ api page pp a, get_content_page api .pages page pp a = api page pp a) ∧
    (∀ api page pp a, get_content_page api .users page pp a = api page pp a) ∧
    (∀ api page pp a, get_content_page api .categories page pp a = api page pp none) ∧
    (∀ api page pp a, get_content_page api .tags page pp a = api page pp none) ∧
    (∀ ct it d store stats,
      process_content_item ct {it with date := d} store stats =
        process_content_item ct it store stats) := by
  exact ⟨fun _ _ _ _ => rfl, fun _ _ _ _ => rfl, fun _ _ _ _ => rfl,
         fun _ _ _ _ => rfl, fun _ _ _ _ => rfl, fun _ _ _ _ => rfl,
         fun _ _ _ _ _ => rfl⟩

/-- Claim C8, counterexample:  A clean comprehensive run does not store an
empty `errors` list: `save_comprehensive_session_stats` stores the
content summary (non-error text) in the `errors` column even when the
aggregated error count is zero. -/
theorem c8_comprehensive_errors_field_nonempty_on_clean_run :
    total_errors [(str "posts", ⟨1, 1, 0, 0⟩)] = 0 ∧
    (save_comprehensive_session_stats (str "example.com") [str "posts"]
        [(str "posts", ⟨1, 1, 0, 0⟩)] false).errors ≠ [] := by
  refine ⟨by decide, by decide⟩

/-- Claim C8, amended:  Only single-kind session records obey the claim:
their `errors` field is `[]` on a clean run and the bare marker
`["Errors occurred"]` otherwise.  Comprehensive session records always
store the per-kind content summary (non-error content) in the `errors`
field, appending the marker exactly when the aggregated error count is
non-zero. -/
theorem c8_session_errors_field (ct : Str) (stats : Stats) (domain : Str)
    (cts : List Str) (all : List (Str × Stats)) (intr : Bool) :
    (stats.errors = 0 → (save_session_stats ct stats).errors = []) ∧
    (stats.errors ≠ 0 →
      (save_session_stats ct stats).errors = [str "Errors occurred"]) ∧
    (save_comprehensive_session_stats domain cts all intr).errors =
      content_summary all ++
        (if total_errors all == 0 then [] else [str "Errors occurred"]) := by
  refine ⟨fun h => ?_, fun h => ?_, ?_⟩
  · simp [save_session_stats, h]
  · simp [save_session_stats, h]
  · by_cases h : total_errors all == 0 <;>
      simp [save_comprehensive_session_stats, h]

/-- Witness for `c8_session_errors_field` at concrete inputs. -/
theorem c8_session_errors_field_witness :
    (save_session_stats (str "posts") ⟨3, 1, 1, 1⟩).errors =
      [str "Errors occurred"] :=
  (c8_session_errors_field (str "posts") ⟨3, 1, 1, 1⟩ [] [] [] false).2.1
    (by decide)

/-- Claim C9, counterexample:  `is_date_after_filter` can raise: an
offset-aware item date (trailing `Z`, rewritten to `+00:00`) compared
against an offset-naive filter date raises `TypeError`, which the
`except (ValueError, AttributeError)` clause does not catch. -/
theorem c9_naive_aware_comparison_raises :
    is_date_after_filter (str "2024-01-01T00:00:00Z") (some dt2024) =
      .error () := by rfl

/-- Claim C9, amended:  `is_date_after_filter` returns `True` whenever the
filter is absent and whenever the item date fails to parse; when the item
date parses and has the same awareness as the filter date it never raises
and returns the inclusive `>=` comparison — but mixing a naive date with an
aware one raises (see the counterexample). -/
theorem c9_date_filter_lenient (s : Str) (ad : Option PyDateTime) :
    (ad = none → is_date_after_filter s ad = .ok true) ∧
    (∀ a, ad = some a → fromisoformat (pyReplaceZ s) = none →
      is_date_after_filter s ad = .ok true) ∧
    (∀ a d, ad = some a → fromisoformat (pyReplaceZ s) = some d →
      d.tz.isNone = a.tz.isNone →
      is_date_after_filter s ad = dtGE d a ∧ ∃ b, dtGE d a = .ok b) ∧
    (∀ d : PyDateTime, dtGE d d = .ok true) := by
  refine ⟨fun h => ?_, fun a ha hp => ?_, fun a d ha hp htz => ⟨?_, ?_⟩,
          fun d => ?_⟩
  · simp [is_date_after_filter, h]
  · simp [is_date_after_filter, ha, hp]
  · simp [is_date_after_filter, ha, hp]
  · cases hda : d.tz <;> cases haa : a.tz <;>
      simp_all [dtGE, Option.isNone]
  · cases hda : d.tz <;> simp [dtGE, hda]

/-- Witness for `c9_date_filter_lenient`: a parsed naive item date against
the naive filter date returns the comparison itself. -/
theorem c9_date_filter_lenient_witness :
    is_date_after_filter (str "2023-06-01") (some dt2024) =
      dtGE ⟨2023, 6, 1, 0, 0, 0, none⟩ dt2024 :=
  ((c9_date_filter_lenient (str "2023-06-01") (some dt2024)).2.2.1
    dt2024 ⟨2023, 6, 1, 0, 0, 0, none⟩ rfl (by decide) rfl).1

/-! ## The version chain: helper lemmas about `get_latest_version` -/

/-- Versions strictly increase along a row list. -/
def versionLt (a b : Row) : Prop := a.version < b.version

/-- Adjacent rows carry different fingerprints. -/
def hashNe (a b : Row) : Prop := a.content_hash ≠ b.content_hash

/-- The rows stored for `wp`, in table order. -/
def rowsOf (rows : List Row) (wp : Nat) : List Row :=
  rows.filter fun r => r.wp_id == wp

theorem versionsOf_eq_map (rows : List Row) (wp : Nat) :
    versionsOf rows wp = (rowsOf rows wp).map fun r => r.version := rfl

theorem foldl_latestRowPick_ne_none (t : List Row) (b : Row) :
    ∃ c, t.foldl latestRowPick (some b) = some c := by
  induction t generalizing b with
  | nil => exact ⟨b, rfl⟩
  | cons r rs ih =>
      rw [List.foldl_cons]
      by_cases hlt : b.version < r.version
      · rw [show latestRowPick (some b) r = some r by simp [latestRowPick, hlt]]
        exact ih r
      · rw [show latestRowPick (some b) r = some b by simp [latestRowPick, hlt]]
        exact ih b

theorem get_latest_version_eq_none_iff (rows : List Row) (wp : Nat) :
    get_latest_version rows wp = none ↔ rowsOf rows wp = [] := by
  unfold get_latest_version rowsOf
  cases hf : rows.filter fun r => r.wp_id == wp with
  | nil => simp
  | cons b t =>
      simp only [List.foldl_cons]
      rw [show latestRowPick none b = some b from rfl]
      obtain ⟨c, hc⟩ := foldl_latestRowPick_ne_none t b
      simp [hc]

theorem foldl_latestRowPick_chain (t : List Row) (b : Row)
    (hch : List.Chain' versionLt (b :: t)) :
    t.foldl latestRowPick (some b) =
      some ((b :: t).getLast (List.cons_ne_nil b t)) := by
  induction t generalizing b with
  | nil => rfl
  | cons r rs ih =>
      have hlt : b.version < r.version := (List.chain'_cons.mp hch).1
      have htl : List.Chain' versionLt (r :: rs) := (List.chain'_cons.mp hch).2
      rw [List.foldl_cons,
        show latestRowPick (some b) r = some r by simp [latestRowPick, hlt],
        ih r htl, List.getLast_cons (List.cons_ne_nil r rs)]

theorem get_latest_version_eq_getLast (rows : List Row) (wp : Nat)
    (hch : List.Chain' versionLt (rowsOf rows wp)) :
    get_latest_version rows wp = (rowsOf rows wp).getLast? := by
  unfold get_latest_version
  rw [show rows.filter (fun r => r.wp_id == wp) = rowsOf rows wp from rfl]
  cases hf : rowsOf rows wp with
  | nil => rfl
  | cons b t =>
      rw [hf] at hch
      simp only [List.foldl_cons]
      rw [show latestRowPick none b = some b from rfl,
        foldl_latestRowPick_chain t b hch,
        List.getLast?_eq_getLast (b :: t) (List.cons_ne_nil b t)]

theorem chain_versionLt_of_range {l : List Row} {n : Nat}
    (hv : l.map (fun r => r.version) = List.range' 1 n) :
    List.Chain' versionLt l := by
  have hpw : List.Pairwise (· < ·) (List.range' 1 n) :=
    List.pairwise_lt_range' 1 n
  rw [← hv] at hpw
  exact (List.chain'_map (f := fun r : Row => r.version)).mp hpw.chain'

theorem range'_one_getLast? (n : Nat) :
    (List.range' 1 (n + 1)).getLast? = some (n + 1) := by
  rw [List.range'_concat, List.getLast?_concat]
  simp only [Option.some.injEq]
  omega

/-- If the stored versions for an id are `1..n` in order, the latest row is
the last stored row and its version is `n`. -/
theorem latest_version_last {rows : List Row} {wp : Nat} {b : Row}
    (hv : (rowsOf rows wp).map (fun r => r.version) =
      List.range' 1 (rowsOf rows wp).length)
    (hb : get_latest_version rows wp = some b) :
    (rowsOf rows wp).getLast? = some b ∧
      b.version = (rowsOf rows wp).length := by
  have hch := chain_versionLt_of_range hv
  have hlast : (rowsOf rows wp).getLast? = some b := by
    rw [← get_latest_version_eq_getLast rows wp hch]; exact hb
  refine ⟨hlast, ?_⟩
  have hmap : ((rowsOf rows wp).map fun r => r.version).getLast? =
      some b.version := by
    rw [List.getLast?_map, hlast, Option.map_some']
  rw [hv] at hmap
  cases hlen : (rowsOf rows wp).length with
  | zero => rw [hlen] at hmap; simp [List.range'] at hmap
  | succ n =>
      rw [hlen, range'_one_getLast? n] at hmap
      exact (Option.some.inj hmap).symm

/-- The per-id store invariant of claim C2: for every kind and id, the
stored versions are exactly `1..N` in order, and adjacent stored rows carry
different fingerprints. -/
def StoreInv (s : Store) : Prop :=
  ∀ ct wp,
    (rowsOf (s ct) wp).map (fun r => r.version) =
      List.range' 1 (rowsOf (s ct) wp).length ∧
    List.Chain' hashNe (rowsOf (s ct) wp)

theorem storeInv_empty : StoreInv emptyStore := by
  intro ct wp
  simp [rowsOf, emptyStore]

theorem rowsOf_append (rows rows' : List Row) (wp : Nat) :
    rowsOf (rows ++ rows') wp = rowsOf rows wp ++ rowsOf rows' wp := by
  simp [rowsOf]

theorem rowsOf_single_ne (wp0 v : Nat) (h : Str) (wp : Nat) (hwp : wp ≠ wp0) :
    rowsOf [(⟨wp0, v, h⟩ : Row)] wp = [] := by
  have hb : ((⟨wp0, v, h⟩ : Row).wp_id == wp) = false := by
    simp only [beq_eq_false_iff_ne, ne_eq]
    omega
  simp [rowsOf, List.filter_cons, hb]

theorem rowsOf_single_eq (wp v : Nat) (h : Str) :
    rowsOf [(⟨wp, v, h⟩ : Row)] wp = [⟨wp, v, h⟩] := by
  simp [rowsOf, List.filter_cons]

/-- The full case analysis of `_process_content_item`, shared by the claim
theorems: Created appends version 1 and counts one new item; Updated
appends version latest+1 and counts one updated item; Unchanged leaves
store and counters alone. -/
theorem process_content_item_cases (ct : ContentType) (it : RemoteItem)
    (store : Store) (stats : Stats) (wp : Nat) (h : Str)
    (hx : extract_content_data ct it = some (wp, h)) :
    (get_content_hash (store ct) wp = none →
      process_content_item ct it store stats =
        some (insert_content store ct ⟨wp, 1, h⟩,
              {stats with new := stats.new + 1})) ∧
    (∀ old r, get_content_hash (store ct) wp = some old → old ≠ h →
      get_latest_version (store ct) wp = some r →
      process_content_item ct it store stats =
        some (insert_content store ct ⟨wp, r.version + 1, h⟩,
              {stats with updated := stats.updated + 1})) ∧
    (get_content_hash (store ct) wp = some h →
      process_content_item ct it store stats = some (store, stats)) := by
  refine ⟨fun h0 => ?_, fun old r h1 hne h2 => ?_, fun h1 => ?_⟩
  · simp [process_content_item, hx, h0]
  · simp [process_content_item, hx, h1, h2, hne]
  · simp [process_content_item, hx, h1]

/-- Appending a first version for a fresh id preserves the invariant. -/
theorem storeInv_insert_first (s : Store) (ct : ContentType) (wp0 : Nat)
    (h : Str) (hinv : StoreInv s) (hempty : rowsOf (s ct) wp0 = []) :
    StoreInv (insert_content s ct ⟨wp0, 1, h⟩) := by
  intro ct' wp
  by_cases hct : ct' = ct
  · subst hct
    rw [show insert_content s ct' ⟨wp0, 1, h⟩ ct' = s ct' ++ [⟨wp0, 1, h⟩] by
      simp [insert_content]]
    rw [rowsOf_append]
    by_cases hwp : wp = wp0
    · subst hwp
      rw [hempty, rowsOf_single_eq]
      constructor
      · rfl
      · exact List.chain'_singleton _
    · rw [rowsOf_single_ne wp0 1 h wp hwp, List.append_nil]
      exact hinv ct' wp
  · rw [show insert_content s ct ⟨wp0, 1, h⟩ ct' = s ct' by
      simp [insert_content, hct]]
    exact hinv ct' wp

/-- Appending version latest+1 with a different fingerprint preserves the
invariant. -/
theorem storeInv_insert_next (s : Store) (ct : ContentType) (wp0 : Nat)
    (h : Str) (r : Row) (hinv : StoreInv s)
    (hr : get_latest_version (s ct) wp0 = some r)
    (hne : r.content_hash ≠ h) :
    StoreInv (insert_content s ct ⟨wp0, r.version + 1, h⟩) := by
  obtain ⟨hv, hchain⟩ := hinv ct wp0
  obtain ⟨hlastr, hverr⟩ := latest_version_last hv hr
  intro ct' wp
  by_cases hct : ct' = ct
  · subst hct
    rw [show insert_content s ct' ⟨wp0, r.version + 1, h⟩ ct' =
        s ct' ++ [⟨wp0, r.version + 1, h⟩] by simp [insert_content]]
    rw [rowsOf_append]
    by_cases hwp : wp = wp0
    · subst hwp
      rw [rowsOf_single_eq]
      constructor
      · rw [List.map_append, hv,
          show ([(⟨wp, r.version + 1, h⟩ : Row)].map fun r => r.version) =
            [r.version + 1] from rfl,
          hverr]
        rw [show (rowsOf (s ct') wp ++
            [(⟨wp, (rowsOf (s ct') wp).length + 1, h⟩ : Row)]).length =
            (rowsOf (s ct') wp).length + 1 by simp]
        rw [List.range'_concat]
        simp [Nat.add_comm]
      · rw [List.chain'_append]
        refine ⟨hchain, List.chain'_singleton _, ?_⟩
        intro x hx y hy
        rw [hlastr] at hx
        cases hx
        cases hy
        exact hne
    · rw [rowsOf_single_ne wp0 (r.version + 1) h wp hwp, List.append_nil]
      exact hinv ct' wp
  · rw [show insert_content s ct ⟨wp0, r.version + 1, h⟩ ct' = s ct' by
      simp [insert_content, hct]]
    exact hinv ct' wp

/-- Processing one item preserves the per-id store invariant. -/
theorem storeInv_step (ct : ContentType) (it : RemoteItem) (s : Store)
    (stats : Stats) (res : Store × Stats) (hinv : StoreInv s)
    (hp : process_content_item ct it s stats = some res) :
    StoreInv res.1 := by
  cases hx : extract_content_data ct it with
  | none =>
      rw [process_content_item, hx] at hp
      simp at hp
  | some ex =>
      obtain ⟨wp0, h⟩ := ex
      have hcases := process_content_item_cases ct it s stats wp0 h hx
      cases hg : get_content_hash (s ct) wp0 with
      | none =>
          rw [hcases.1 hg] at hp
          rw [← Option.some.inj hp]
          exact storeInv_insert_first s ct wp0 h hinv
            ((get_latest_version_eq_none_iff (s ct) wp0).mp (by
              unfold get_content_hash at hg
              cases hl : get_latest_version (s ct) wp0 with
              | none => rfl
              | some r => rw [hl] at hg; simp at hg))
      | some old =>
          by_cases hoh : old = h
          · subst hoh
            rw [hcases.2.2 hg] at hp
            rw [← Option.some.inj hp]
            exact hinv
          · obtain ⟨r, hr⟩ : ∃ r, get_latest_version (s ct) wp0 = some r := by
              unfold get_content_hash at hg
              cases hl : get_latest_version (s ct) wp0 with
              | none => rw [hl] at hg; simp at hg
              | some r => exact ⟨r, rfl⟩
            have hold : r.content_hash = old := by
              unfold get_content_hash at hg
              rw [hr] at hg
              exact Option.some.inj hg
            rw [hcases.2.1 old r hg hoh hr] at hp
            rw [← Option.some.inj hp]
            exact storeInv_insert_next s ct wp0 h r hinv hr (hold ▸ hoh)

theorem storeInv_runOps_aux (ops : List (ContentType × RemoteItem))
    (s : Store) (hinv : StoreInv s) :
    StoreInv (ops.foldl
      (fun st op =>
        match process_content_item op.1 op.2 st {} with
        | some res => res.1
        | none => st) s) := by
  induction ops generalizing s with
  | nil => exact hinv
  | cons op rest ih =>
      simp only [List.foldl_cons]
      apply ih
      cases hp : process_content_item op.1 op.2 s {} with
      | none => simpa [hp] using hinv
      | some res =>
          have := storeInv_step op.1 op.2 s {} res hinv hp
          simpa [hp] using this

/-- Claim C2, confirmed:  After any sequence of item-processing operations
from the empty store, the versions stored for any id of any kind form the
contiguous sequence `1..N` (in insertion order), and adjacent versions
carry pairwise distinct fingerprints. -/
theorem c2_version_chain_invariant (ops : List (ContentType × RemoteItem))
    (ct : ContentType) (wp : Nat) :
    versionsOf (runOps ops ct) wp =
      List.range' 1 (rowsOf (runOps ops ct) wp).length ∧
    List.Chain' (fun a b => a.content_hash ≠ b.content_hash)
      (rowsOf (runOps ops ct) wp) :=
  storeInv_runOps_aux ops emptyStore storeInv_empty ct wp

/-- Claim C1, confirmed:  For any kind, item and store: if no row exists for
the item's id, processing appends version 1 and counts it as new
(Created); if the latest stored fingerprint differs, processing appends
version latest+1 and counts it as updated (Updated); if it is equal,
processing changes nothing (Unchanged). -/
theorem c1_record_outcome_cases (ct : ContentType) (it : RemoteItem)
    (store : Store) (stats : Stats) (wp : Nat) (h : Str)
    (hx : extract_content_data ct it = some (wp, h)) :
    (get_content_hash (store ct) wp = none →
      process_content_item ct it store stats =
        some (insert_content store ct ⟨wp, 1, h⟩,
              {stats with new := stats.new + 1})) ∧
    (∀ old r, get_content_hash (store ct) wp = some old → old ≠ h →
      get_latest_version (store ct) wp = some r →
      process_content_item ct it store stats =
        some (insert_content store ct ⟨wp, r.version + 1, h⟩,
              {stats with updated := stats.updated + 1})) ∧
    (get_content_hash (store ct) wp = some h →
      process_content_item ct it store stats = some (store, stats)) :=
  process_content_item_cases ct it store stats wp h hx

/-- Witness for `c1_record_outcome_cases`: first sighting of id 7 appends
version 1 and counts one new item. -/
theorem c1_record_outcome_cases_witness :
    process_content_item .posts (postItem 7 (str "body")) emptyStore {} =
      some (insert_content emptyStore .posts
              ⟨7, 1, calculate_content_hash (str "body")⟩,
            ⟨0, 1, 0, 0⟩) :=
  (c1_record_outcome_cases .posts (postItem 7 (str "body")) emptyStore {} 7
      (calculate_content_hash (str "body")) rfl).1 rfl

/-! ## Orchestrator counters -/

/-- Item processing never touches the processed or error counters
and adds at most one to new+updated. -/
theorem process_stats_shape (ct : ContentType) (it : RemoteItem)
    (store : Store) (stats : Stats) (res : Store × Stats)
    (hp : process_content_item ct it store stats = some res) :
    res.2.processed = stats.processed ∧ res.2.errors = stats.errors ∧
      res.2.new + res.2.updated ≤ stats.new + stats.updated + 1 := by
  cases hx : extract_content_data ct it with
  | none =>
      rw [process_content_item, hx] at hp
      simp at hp
  | some ex =>
      obtain ⟨wp, h⟩ := ex
      have hc := process_content_item_cases ct it store stats wp h hx
      cases hg : get_content_hash (store ct) wp with
      | none =>
          rw [hc.1 hg] at hp
          rw [← Option.some.inj hp]
          refine ⟨rfl, rfl, ?_⟩
          show stats.new + 1 + stats.updated ≤ stats.new + stats.updated + 1
          omega
      | some old =>
          by_cases hoh : old = h
          · subst hoh
            rw [hc.2.2 hg] at hp
            rw [← Option.some.inj hp]
            refine ⟨rfl, rfl, ?_⟩
            show stats.new + stats.updated ≤ stats.new + stats.updated + 1
            omega
          · obtain ⟨r, hr⟩ : ∃ r, get_latest_version (store ct) wp = some r := by
              unfold get_content_hash at hg
              cases hl : get_latest_version (store ct) wp with
              | none => rw [hl] at hg; simp at hg
              | some r => exact ⟨r, rfl⟩
            rw [hc.2.1 old r hg hoh hr] at hp
            rw [← Option.some.inj hp]
            refine ⟨rfl, rfl, ?_⟩
            show stats.new + (stats.updated + 1) ≤ stats.new + stats.updated + 1
            omega

/-- The per-page loop keeps new+updated below processed. -/
theorem processPageItems_counters (ct : ContentType) (limit : Option Nat)
    (items : List RemoteItem) :
    ∀ store stats, stats.new + stats.updated ≤ stats.processed →
      (processPageItems ct limit items store stats).2.new +
          (processPageItems ct limit items store stats).2.updated ≤
        (processPageItems ct limit items store stats).2.processed := by
  induction items with
  | nil => intro store stats h; exact h
  | cons it rest ih =>
      intro store stats h
      simp only [processPageItems]
      cases hp : process_content_item ct it store
          {stats with processed := stats.processed + 1} with
      | none =>
          simp only [hp]
          apply ih
          dsimp only
          omega
      | some res =>
          obtain ⟨h1, _h2, h3⟩ := process_stats_shape ct it store
            {stats with processed := stats.processed + 1} res hp
          dsimp only at h1 h3
          simp only [hp]
          split
          · omega
          · apply ih
            omega

/-- The pagination loop keeps new+updated below processed, from any
starting state. -/
theorem archiveLoop_counters (api : Api) (ct : ContentType)
    (limit : Option Nat) (per_page : Nat) (afterIso : Option Str) :
    ∀ fuel page consec store stats pages,
      stats.new + stats.updated ≤ stats.processed →
      (archiveLoop api ct limit per_page afterIso fuel page consec store
          stats pages).stats.new +
        (archiveLoop api ct limit per_page afterIso fuel page consec store
          stats pages).stats.updated ≤
        (archiveLoop api ct limit per_page afterIso fuel page consec store
          stats pages).stats.processed := by
  intro fuel
  induction fuel with
  | zero => intro page consec store stats pages h; exact h
  | succ f ih =>
      intro page consec store stats pages h
      simp only [archiveLoop, Bool.not_true, Bool.false_and,
        Bool.false_eq_true, if_false]
      have hpage := processPageItems_counters ct limit
        (get_content_page api ct page per_page afterIso).data store stats h
      split
      · exact h
      · split
        · exact hpage
        · split
          · exact hpage
          · exact ih (page + 1) 0 _ _ _ hpage

/-- Claim C10, confirmed:  At every point of `archive_content` — along the
pagination loop from any reachable state, and in the final result of a
whole run — the new and updated counters sum to at most the processed
counter. -/
theorem c10_new_updated_le_processed (api : Api) (ct : ContentType)
    (limit : Option Nat) (after : Option PyDateTime) (per_page : Nat)
    (afterIso : Option Str) (fuel page consec : Nat) (store : Store)
    (stats : Stats) (pages : List Nat)
    (h : stats.new + stats.updated ≤ stats.processed) :
    ((archiveLoop api ct limit per_page afterIso fuel page consec store
        stats pages).stats.new +
      (archiveLoop api ct limit per_page afterIso fuel page consec store
        stats pages).stats.updated ≤
      (archiveLoop api ct limit per_page afterIso fuel page consec store
        stats pages).stats.processed) ∧
    ((archive_content api ct limit after fuel).stats.new +
      (archive_content api ct limit after fuel).stats.updated ≤
      (archive_content api ct limit after fuel).stats.processed) :=
  ⟨archiveLoop_counters api ct limit per_page afterIso fuel page consec
      store stats pages h,
   archiveLoop_counters api ct limit _ _ fuel 1 0 emptyStore {} []
      (Nat.le_refl 0)⟩

/-- Witness for `c10_new_updated_le_processed` at a concrete run. -/
theorem c10_new_updated_le_processed_witness :
    (archive_content api30 .posts (some 5) none 3).stats.new +
      (archive_content api30 .posts (some 5) none 3).stats.updated ≤
      (archive_content api30 .posts (some 5) none 3).stats.processed :=
  (c10_new_updated_le_processed api30 .posts (some 5) none 5 none 3 1 0
      emptyStore {} [] (Nat.le_refl 0)).2

/-! ## The item-count limit -/

/-- Claim C7, confirmed:  A run with limit 5 over a 30-item source stops
after processing exactly 5 items, having requested only page 1 — page 3 is
never requested; and in general, whenever processing the items of a page
leaves the limit reached, the pagination loop returns right after that
page for any remaining fuel: no further page is ever requested (the run
transitions to done once processed reaches the limit).  (When an item's
processing raises, the program skips the in-`try` limit check for that
item, so the limit is enforced after each successfully processed item and
after each page, which this statement reflects.) -/
theorem c7_limit_stops_run :
    (∀ fuel,
      (archive_content api30 .posts (some 5) none (fuel + 1)).stats.processed
          = 5 ∧
        (archive_content api30 .posts (some 5) none (fuel + 1)).pagesRequested
          = [1]) ∧
    (∀ fuel, 3 ∉ (archive_content api30 .posts (some 5) none
        fuel).pagesRequested) ∧
    (∀ fuel (api : Api) (ct : ContentType) (limit : Option Nat)
        (per_page : Nat) (afterIso : Option Str) (page consec : Nat)
        (store : Store) (stats : Stats) (pages : List Nat),
      limitHit limit (processPageItems ct limit
          (get_content_page api ct page per_page afterIso).data store
          stats).2 = true →
      archiveLoop api ct limit per_page afterIso (fuel + 1) page consec
          store stats pages =
        ⟨(processPageItems ct limit (get_content_page api ct page per_page
            afterIso).data store stats).1,
         (processPageItems ct limit (get_content_page api ct page per_page
            afterIso).data store stats).2,
         pages ++ [page]⟩) := by
  have hscen : ∀ fuel,
      (archive_content api30 .posts (some 5) none (fuel + 1)).stats.processed
          = 5 ∧
        (archive_content api30 .posts (some 5) none (fuel + 1)).pagesRequested
          = [1] := by
    intro fuel
    simp +decide only [archive_content, archiveLoop, if_true, if_false]
  refine ⟨hscen, ?_, ?_⟩
  · intro fuel
    cases fuel with
    | zero => decide
    | succ f =>
        rw [(hscen f).2]
        decide
  · intro fuel api ct limit per_page afterIso page consec store stats pages
      hlim
    simp only [archiveLoop]
    split
    · rename_i hempty
      rw [List.isEmpty_iff.mp hempty]
      rfl
    · rfl

/-- Witness for `c7_limit_stops_run`: on the concrete 30-item source with
limit 5, page 1 reaches the limit, so the loop stops there with any
remaining fuel. -/
theorem c7_limit_stops_run_witness :
    archiveLoop api30 .posts (some 5) 5 none 1 1 0 emptyStore {} [] =
      ⟨(processPageItems .posts (some 5)
          (get_content_page api30 .posts 1 5 none).data emptyStore {}).1,
       (processPageItems .posts (some 5)
          (get_content_page api30 .posts 1 5 none).data emptyStore {}).2,
       [] ++ [1]⟩ :=
  c7_limit_stops_run.2.2 0 api30 .posts (some 5) 5 none 1 0 emptyStore {} []
    (by decide)

/-! ## Idempotence of the whitespace-collapse and trim steps -/

/-- Every whitespace character of `s` is the plain space. -/
def WsSp (s : Str) : Prop := ∀ c ∈ s, pyWs c = true → c = ' '

/-- No two adjacent characters of `s` are both whitespace. -/
def NoAdjWs (s : Str) : Prop :=
  List.Chain' (fun a b => ¬(pyWs a = true ∧ pyWs b = true)) s

theorem wsSp_collapseWs (s : Str) : WsSp (collapseWs s) := by
  induction s using collapseWs.induct with
  | case1 => intro c hc; cases hc
  | case2 c hws =>
      intro x hx
      rw [collapseWs, if_pos hws] at hx
      cases hx with
      | head => intro _; rfl
      | tail _ hmem => cases hmem
  | case3 c hws =>
      intro x hx
      rw [collapseWs, if_neg hws] at hx
      cases hx with
      | head => intro hc; exact absurd hc (by simp [hws])
      | tail _ hmem => cases hmem
  | case4 c d cs hwd ih =>
      intro x hx
      rw [collapseWs, if_pos hwd] at hx
      exact ih x hx
  | case5 c d cs hwd ih =>
      intro x hx
      rw [collapseWs, if_neg hwd] at hx
      cases hx with
      | head =>
          by_cases hwc : pyWs c
          · rw [if_pos hwc]; intro _; rfl
          · rw [if_neg hwc]; intro hc; exact absurd hc hwc
      | tail _ hmem => exact ih x hmem

theorem collapseWs_head_of_not_ws (d : Char) (cs : Str)
    (hd : pyWs d = false) : (collapseWs (d :: cs)).head? = some d := by
  cases cs with
  | nil => rw [collapseWs, if_neg (by simp [hd])]; rfl
  | cons e cs' =>
      rw [collapseWs, if_neg (by simp [hd]), if_neg (by simp [hd])]
      rfl

theorem noAdjWs_collapseWs (s : Str) : NoAdjWs (collapseWs s) := by
  induction s using collapseWs.induct with
  | case1 => exact List.chain'_nil
  | case2 c hws =>
      rw [collapseWs, if_pos hws]
      exact List.chain'_singleton _
  | case3 c hws =>
      rw [collapseWs, if_neg hws]
      exact List.chain'_singleton _
  | case4 c d cs hwd ih => rw [collapseWs, if_pos hwd]; exact ih
  | case5 c d cs hwd ih =>
      rw [collapseWs, if_neg hwd]
      unfold NoAdjWs
      rw [List.chain'_cons']
      refine ⟨?_, ih⟩
      intro y hy hcon
      by_cases hwc : pyWs c
      · have hwdf : pyWs d = false := by
          cases hpd : pyWs d
          · rfl
          · exact absurd (by simp [hwc, hpd]) hwd
        rw [collapseWs_head_of_not_ws d cs hwdf] at hy
        cases hy
        exact absurd hcon.2 (by simp [hwdf])
      · rw [if_neg hwc] at hcon
        exact hwc hcon.1

theorem collapseWs_fixed (s : Str) (h1 : WsSp s) (h2 : NoAdjWs s) :
    collapseWs s = s := by
  induction s using collapseWs.induct with
  | case1 => rfl
  | case2 c hws =>
      rw [collapseWs, if_pos hws, h1 c (List.mem_singleton_self c) hws]
  | case3 c hws => rw [collapseWs, if_neg hws]
  | case4 c d cs hwd ih =>
      exfalso
      have := (List.chain'_cons.mp h2).1
      simp only [Bool.and_eq_true] at hwd
      exact this ⟨hwd.1, hwd.2⟩
  | case5 c d cs hwd ih =>
      rw [collapseWs, if_neg hwd]
      have htl : collapseWs (d :: cs) = d :: cs :=
        ih (fun x hx => h1 x (List.mem_cons_of_mem c hx))
          (List.chain'_cons.mp h2).2
      rw [htl]
      by_cases hwc : pyWs c
      · rw [if_pos hwc, h1 c (List.mem_cons_self c _) hwc]
      · rw [if_neg hwc]

theorem wsSp_of_subset {s t : Str} (hsub : s ⊆ t) (h : WsSp t) : WsSp s :=
  fun c hc => h c (hsub hc)

theorem noAdjWs_pyStrip (s : Str) (h : NoAdjWs s) : NoAdjWs (pyStrip s) := by
  unfold pyStrip
  have symmStep : ∀ a b : Char,
      ¬(pyWs a = true ∧ pyWs b = true) → ¬(pyWs b = true ∧ pyWs a = true) :=
    fun a b hab ⟨x, y⟩ => hab ⟨y, x⟩
  have h1 : NoAdjWs (s.dropWhile pyWs) :=
    List.Chain'.suffix h (List.dropWhile_suffix pyWs)
  have h2 : NoAdjWs (s.dropWhile pyWs).reverse :=
    List.chain'_reverse.mpr (h1.imp symmStep)
  have h3 : NoAdjWs ((s.dropWhile pyWs).reverse.dropWhile pyWs) :=
    List.Chain'.suffix h2 (List.dropWhile_suffix pyWs)
  exact List.chain'_reverse.mpr (h3.imp symmStep)

theorem wsSp_pyStrip (s : Str) (h : WsSp s) : WsSp (pyStrip s) := by
  unfold pyStrip
  refine wsSp_of_subset (fun c hc => ?_) h
  have h1 := (List.dropWhile_sublist (l := (s.dropWhile pyWs).reverse)
    pyWs).subset (List.mem_reverse.mp hc)
  exact (List.dropWhile_sublist pyWs).subset (List.mem_reverse.mp h1)

theorem head?_dropWhile_false (p : Char → Bool) (l : Str) (x : Char)
    (hx : (l.dropWhile p).head? = some x) : p x = false := by
  have h := List.head?_dropWhile_not p l
  rw [hx] at h
  exact h

theorem dropWhile_eq_self_of_head (p : Char → Bool) (l : Str)
    (h : ∀ x, l.head? = some x → p x = false) : l.dropWhile p = l := by
  cases l with
  | nil => rfl
  | cons c cs => rw [List.dropWhile_cons, h c rfl]; simp

theorem getLast?_of_suffix {l t : Str} (hsuf : t <:+ l) (hne : t ≠ []) :
    t.getLast? = l.getLast? := by
  obtain ⟨u, hu⟩ := hsuf
  rw [← hu]
  cases ht : t with
  | nil => exact absurd ht hne
  | cons b bs =>
      rw [List.getLast?_append_of_ne_nil]
      simp

theorem pyStrip_head (s : Str) (x : Char) (hx : (pyStrip s).head? = some x) :
    pyWs x = false := by
  unfold pyStrip at hx
  rw [List.head?_reverse] at hx
  by_cases hne : (s.dropWhile pyWs).reverse.dropWhile pyWs = []
  · rw [hne] at hx; cases hx
  · rw [getLast?_of_suffix (List.dropWhile_suffix pyWs) hne,
      List.getLast?_reverse] at hx
    exact head?_dropWhile_false pyWs s x hx

theorem pyStrip_getLast (s : Str) (x : Char)
    (hx : (pyStrip s).getLast? = some x) : pyWs x = false := by
  unfold pyStrip at hx
  rw [List.getLast?_reverse] at hx
  exact head?_dropWhile_false pyWs _ x hx

theorem pyStrip_idem (s : Str) : pyStrip (pyStrip s) = pyStrip s := by
  conv_lhs => rw [pyStrip]
  rw [dropWhile_eq_self_of_head pyWs (pyStrip s)
    (fun x hx => pyStrip_head s x hx)]
  rw [dropWhile_eq_self_of_head pyWs (pyStrip s).reverse
    (fun x hx => pyStrip_getLast s x (by rwa [List.head?_reverse] at hx))]
  exact List.reverse_reverse _

/-- The composed collapse-then-trim tail of the normalizer is idempotent. -/
theorem normTail_idem (u : Str) :
    pyStrip (collapseWs (pyStrip (collapseWs u))) = pyStrip (collapseWs u) := by
  have h1 := wsSp_collapseWs u
  have h2 := noAdjWs_collapseWs u
  rw [collapseWs_fixed (pyStrip (collapseWs u))
    (wsSp_pyStrip _ h1) (noAdjWs_pyStrip _ h2)]
  exact pyStrip_idem _

/-- Claim C3, amended:  Normalization is not idempotent in general (see the
counterexample): re-normalizing strips anew whatever markup entity
decoding has revealed or a late pattern step has emptied.  It is
idempotent exactly on the runs where that cannot happen: whenever the
normal form is left fixed by the pattern-removal and entity-decoding
steps, a second normalization changes nothing, because the final
whitespace-collapse-and-trim steps are idempotent on their own. -/
theorem c3_normalize_idempotent_on_stable_inputs (h : Str)
    (hpat : applyDynamicPatterns (normalize_content h) = normalize_content h)
    (hent : pyUnescape (normalize_content h) = normalize_content h) :
    normalize_content (normalize_content h) = normalize_content h := by
  by_cases h0 : (normalize_content h).isEmpty
  · rw [normalize_content, if_pos h0]
    exact (List.isEmpty_iff.mp h0).symm
  · conv_lhs => rw [normalize_content]
    rw [if_neg h0, hpat, hent]
    have hh : ¬ h.isEmpty := by
      intro hh
      apply h0
      rw [normalize_content, if_pos hh]
      rfl
    rw [show normalize_content h =
        pyStrip (collapseWs (pyUnescape (applyDynamicPatterns h))) by
      rw [normalize_content, if_neg hh]]
    exact normTail_idem _

/-- Witness for `c3_normalize_idempotent_on_stable_inputs`: a plain
paragraph is a stable input. -/
theorem c3_normalize_idempotent_on_stable_inputs_witness :
    normalize_content (normalize_content (str "<p>Hello</p>")) =
      normalize_content (str "<p>Hello</p>") :=
  c3_normalize_idempotent_on_stable_inputs (str "<p>Hello</p>")
    (by decide) (by decide)

end WordpressArchiver
